import Mathlib

/-!
Verification of the prompt.c prefix-arithmetic calculator (buildyourownlisp).

The development shallowly embeds the C source:
* `lval`, `lval_num`, `lval_err` mirror the tagged value struct and its
  constructors (the C struct's field left uninitialized by each constructor is
  modelled as `0`);
* `eval_op` and `eval` mirror the evaluator, with C `long` modelled as `Int`
  (signed overflow during combination is undefined in C and unspecified in the
  design, so unbounded integers are used), `strtol`'s ERANGE check modelled on
  the mathematical value of the numeral, and an out-of-bounds child access
  (undefined behavior in C) modelled as `none`;
* the mpc parser library is not part of the source tree, so the grammar
  `number : -?[0-9]+ ; operator : + - * / ; expr : number | ( operator expr+ ) ;
  lsp : ^ operator expr+ $` is modelled from the spec, producing mpc-style
  tagged trees.
-/

/-- Model of C `strstr(hay, needle) != NULL`: `needle` occurs in `hay`. -/
def strstrContains (hay needle : String) : Bool :=
  hay.data.tails.any (fun t => needle.data.isPrefixOf t)

/-- `LVAL_NUM` enum value. -/
def LVAL_NUM : Nat := 0
/-- `LVAL_ERR` enum value. -/
def LVAL_ERR : Nat := 1
/-- `LERR_DIV_ZERO` enum value. -/
def LERR_DIV_ZERO : Nat := 0
/-- `LERR_BAD_OP` enum value. -/
def LERR_BAD_OP : Nat := 1
/-- `LERR_BAD_NUM` enum value. -/
def LERR_BAD_NUM : Nat := 2

/-- The C struct `lval`: a type tag plus both payload fields. -/
structure lval where
  type : Nat
  num : Int
  err : Nat
deriving Repr, DecidableEq

/-- `lval_num`: creates a number lval.  The C code leaves `err` uninitialized;
it is modelled as `0` (no theorem below depends on this choice). -/
def lval_num (x : Int) : lval :=
  { type := LVAL_NUM, num := x, err := 0 }

/-- `lval_err`: creates an error lval.  The C code leaves `num` uninitialized;
it is modelled as `0` (no theorem below depends on this choice). -/
def lval_err (x : Nat) : lval :=
  { type := LVAL_ERR, num := 0, err := x }

/-- `eval_op` from prompt.c, verbatim: note that the second error check tests
`x.type` again, exactly as the source does. -/
def eval_op (x : lval) (op : String) (y : lval) : lval :=
  if x.type = LVAL_ERR then x
  else if x.type = LVAL_ERR then x
  else if op = "+" then lval_num (x.num + y.num)
  else if op = "-" then lval_num (x.num - y.num)
  else if op = "*" then lval_num (x.num * y.num)
  else if op = "/" then
    if y.num = 0 then lval_err LERR_DIV_ZERO else lval_num (x.num.tdiv y.num)
  else lval_err LERR_BAD_OP

/-- `LONG_MAX` for the 64-bit `long` of the target platform. -/
def LONG_MAX : Int := 9223372036854775807
/-- `LONG_MIN` for the 64-bit `long` of the target platform. -/
def LONG_MIN : Int := -9223372036854775808

/-- Numeric value of a digit sequence (base 10). -/
def digitsVal (cs : List Char) : Nat :=
  cs.foldl (fun a c => 10 * a + (c.toNat - 48)) 0

/-- Mathematical value parsed by `strtol(s, NULL, 10)` from a string of the
shape produced by the `number` rule (optional minus sign, then a maximal
digit run; anything else contributes the value of its digit prefix, i.e. `0`
when there are no leading digits, as `strtol` does). -/
def strtolMath (s : String) : Int :=
  match s.data with
  | '-' :: rest => - (digitsVal (rest.takeWhile Char.isDigit) : Int)
  | cs => (digitsVal (cs.takeWhile Char.isDigit) : Int)

/-- Whether `strtol` sets `errno = ERANGE` on `s`: the value overflows `long`. -/
def strtolERANGE (s : String) : Bool :=
  decide (strtolMath s < LONG_MIN ∨ LONG_MAX < strtolMath s)

/-- The `long` returned by `strtol` on `s` (clamped on overflow). -/
def strtolRet (s : String) : Int :=
  if strtolMath s < LONG_MIN then LONG_MIN
  else if LONG_MAX < strtolMath s then LONG_MAX
  else strtolMath s

/-- mpc-style parse tree node: a tag, literal contents, and children. -/
inductive Ast where
  | mk (tag : String) (contents : String) (children : List Ast)
deriving Repr

/-- The node's tag. -/
def Ast.tag : Ast → String
  | .mk t _ _ => t

/-- The node's literal contents. -/
def Ast.contents : Ast → String
  | .mk _ c _ => c

/-- The node's children. -/
def Ast.children : Ast → List Ast
  | .mk _ _ cs => cs

mutual

/-- `eval` from prompt.c.  A node tagged `number` is parsed with `strtol` and
checked for ERANGE; otherwise the child at index 1 supplies the operator text,
the child at index 2 the initial accumulator, and the remaining children are
combined while their tag contains `expr`.  The C code indexes `children[1]`,
`children[2]` and then `children[i]` for `i = 3, 4, ...` without any bounds
check; an access past the end of the children array is undefined behavior and
is modelled as `none`. -/
def eval (t : Ast) : Option lval :=
  match t with
  | .mk tag contents children =>
    if strstrContains tag "number" then
      some (if strtolERANGE contents then lval_err LERR_BAD_NUM
            else lval_num (strtolRet contents))
    else
      match children with
      | _c0 :: c1 :: c2 :: rest =>
        (eval c2).bind fun x => evalLoop c1.contents x rest
      | _ => none
termination_by sizeOf t

/-- The `while (strstr(t->children[i]->tag, "expr"))` loop of `eval`, acting on
the children from index 3 onward.  Running off the end of the array is the
undefined-behavior case, modelled as `none`. -/
def evalLoop (op : String) (x : lval) (cs : List Ast) : Option lval :=
  match cs with
  | [] => none
  | c :: rest =>
    if strstrContains c.tag "expr" then
      (eval c).bind fun y => evalLoop op (eval_op x op y) rest
    else
      some x
termination_by sizeOf cs

end

/-! ## The parser, modelled from the spec

`mpc.h` is not part of the source tree; only the grammar text passed to
`mpca_lang` is.  The definitions below are therefore modelled from the spec:
recursive-descent parsing of
`number : -?[0-9]+ ; operator : one of + - * / ;
 expr : number | ( operator expr+ ) ; lsp : ^ operator expr+ $`,
with ordered choice trying `number` before the parenthesized form, whitespace
skippable between any two grammar symbols, and mpc-style node tags
(`>` for the root, `regex` for the anchors, `operator|char`, `char`,
`expr|number|regex`, `expr|>`).  Recursion is bounded by a fuel parameter that
the top entry point sets generously enough never to be exhausted on the inputs
considered here (fuel exhaustion would surface as a parse failure). -/

/-- An end-of-input / start-of-input anchor node. -/
def anchorAst : Ast := .mk "regex" "" []

/-- A punctuation (parenthesis) node. -/
def charNode (s : String) : Ast := .mk "char" s []

/-- An operator node with the given literal text. -/
def opNodeAst (op : String) : Ast := .mk "operator|char" op []

/-- A number leaf with the given literal text. -/
def numLeafAst (txt : String) : Ast := .mk "expr|number|regex" txt []

/-- A parenthesized operator form: `( op e1 ... en )`. -/
def exprNodeAst (op : String) (es : List Ast) : Ast :=
  .mk "expr|>" "" (charNode "(" :: opNodeAst op :: es ++ [charNode ")"])

/-- The root node for the top-level `lsp` rule: `^ op e1 ... en $`. -/
def rootAst (op : String) (es : List Ast) : Ast :=
  .mk ">" "" (anchorAst :: opNodeAst op :: es ++ [anchorAst])

/-- Skip insignificant whitespace. -/
def skipWs (s : List Char) : List Char := s.dropWhile Char.isWhitespace

/-- Match the regex `-?[0-9]+` at the head of the input (maximal digit run);
returns the matched text and the rest. -/
def parseNumberTok (s : List Char) : Option (String × List Char) :=
  match s with
  | '-' :: rest =>
    let ds := rest.takeWhile Char.isDigit
    if ds = [] then none
    else some (String.mk ('-' :: ds), rest.dropWhile Char.isDigit)
  | _ =>
    let ds := s.takeWhile Char.isDigit
    if ds = [] then none
    else some (String.mk ds, s.dropWhile Char.isDigit)

/-- Match one of the four operator characters. -/
def parseOpTok (s : List Char) : Option (String × List Char) :=
  match s with
  | c :: rest =>
    if c = '+' ∨ c = '-' ∨ c = '*' ∨ c = '/' then some (String.mk [c], rest)
    else none
  | [] => none

/-- Match one expected punctuation character. -/
def expectChar (c : Char) (s : List Char) : Option (List Char) :=
  match s with
  | c' :: rest => if c' = c then some rest else none
  | [] => none

mutual

/-- Parse one `expr`: a `number`, or `( operator expr+ )` (ordered choice,
`number` first). -/
def parseExprF : Nat → List Char → Option (Ast × List Char)
  | 0, _ => none
  | fuel + 1, s =>
    match parseNumberTok (skipWs s) with
    | some (txt, r) => some (numLeafAst txt, r)
    | none =>
      (expectChar '(' (skipWs s)).bind fun s2 =>
      (parseOpTok (skipWs s2)).bind fun p =>
      (parseExprF fuel p.2).bind fun q =>
      (parseMany fuel q.2).bind fun m =>
      (expectChar ')' (skipWs m.2)).map fun s6 =>
        (exprNodeAst p.1 (q.1 :: m.1), s6)

/-- Parse zero or more `expr`s, greedily. -/
def parseMany : Nat → List Char → Option (List Ast × List Char)
  | 0, _ => none
  | fuel + 1, s =>
    match parseExprF fuel s with
    | some (e, r) =>
      match parseMany fuel r with
      | some (es, r2) => some (e :: es, r2)
      | none => none
    | none => some ([], s)

end

/-- Parse a whole input line against the top-level `lsp` rule:
start anchor, an operator, one or more `expr`s, end anchor. -/
def parseLsp (input : String) : Option Ast :=
  let fuel := 2 * input.length + 2
  (parseOpTok (skipWs input.data)).bind fun p =>
  (parseExprF fuel p.2).bind fun q =>
  (parseMany fuel q.2).bind fun m =>
  if skipWs m.2 = [] then some (rootAst p.1 (q.1 :: m.1)) else none

/-- Outcome of processing one input line in `main`'s loop. -/
inductive ProcResult where
  | value (v : lval)
  | parseFailure
  | undef
deriving Repr, DecidableEq

/-- One iteration of `main`'s read-eval-print loop on a given line: on parse
success the tree is evaluated (`undef` marks the undefined-behavior case of
`eval`, which never arises on parser output); on parse failure the error is
printed and the evaluator is not invoked. -/
def processLine (input : String) : ProcResult :=
  match parseLsp input with
  | some t =>
    match eval t with
    | some v => ProcResult.value v
    | none => ProcResult.undef
  | none => ProcResult.parseFailure

/-! ## Well-formedness of parser output -/

/-- Trees the `expr` rule can produce: a number leaf, or a parenthesized
operator form with at least one subexpression. -/
inductive WfExpr : Ast → Prop where
  | num (txt : String) : WfExpr (numLeafAst txt)
  | paren (op : String) (es : List Ast) (hne : es ≠ [])
      (hes : ∀ e ∈ es, WfExpr e) : WfExpr (exprNodeAst op es)

/-- Trees the top-level `lsp` rule can produce. -/
inductive WfRoot : Ast → Prop where
  | mk (op : String) (es : List Ast) (hne : es ≠ [])
      (hes : ∀ e ∈ es, WfExpr e) : WfRoot (rootAst op es)

/-- A well-formed result value: a number, or one of the three error kinds. -/
def GoodLval (v : lval) : Prop :=
  v.type = LVAL_NUM ∨
    (v.type = LVAL_ERR ∧
      (v.err = LERR_DIV_ZERO ∨ v.err = LERR_BAD_OP ∨ v.err = LERR_BAD_NUM))

instance (v : lval) : Decidable (GoodLval v) := by
  unfold GoodLval; infer_instance

/-! ## Subtrees, and the shape facts behind the child scan -/

/-- `Subtree s t`: `s` is `t` itself or a descendant of `t`. -/
inductive Subtree : Ast → Ast → Prop where
  | refl (t : Ast) : Subtree t t
  | child (s c t : Ast) (hc : c ∈ t.children) (h : Subtree s c) : Subtree s t

/-! ## Spec-side reference definitions

These two definitions follow the spec's words (the left-to-right fold over the
`expr`-tagged children, and the arithmetic meaning `a op b` with truncating
division), to be compared with the evaluator translated from the source. -/

/-- Spec's left-to-right fold: combine the accumulator with each evaluated
`expr`-tagged child, stopping at the first non-`expr` child. -/
def specFoldChildren (op : String) (x : lval) (cs : List Ast) : Option lval :=
  (cs.takeWhile fun c => strstrContains c.tag "expr").foldl
    (fun acc c => acc.bind fun a => (eval c).bind fun y =>
      some (eval_op a op y))
    (some x)

/-- Spec's arithmetic meaning of a recognized operator (`/` truncates). -/
def specOpDenote (op : String) (a b : Int) : Int :=
  if op = "+" then a + b
  else if op = "-" then a - b
  else if op = "*" then a * b
  else a.tdiv b

/-! ## Sanity checks on concrete inputs -/

example : eval (Ast.mk "expr|number|regex" "42" []) = some (lval_num 42) := by
  simp [eval, strstrContains, strtolERANGE, strtolMath, strtolRet, digitsVal,
    LONG_MIN, LONG_MAX]

example : parseLsp "+ 1 2" =
    some (rootAst "+" [numLeafAst "1", numLeafAst "2"]) := by rfl

example : parseLsp "5" = none := by rfl

example : parseLsp "-5" = some (rootAst "-" [numLeafAst "5"]) := by rfl

example : parseLsp "- 10 1 2 3" =
    some (rootAst "-" [numLeafAst "10", numLeafAst "1", numLeafAst "2",
      numLeafAst "3"]) := by rfl

example : parseLsp "+ 1 (* 2 3)" =
    some (rootAst "+" [numLeafAst "1",
      exprNodeAst "*" [numLeafAst "2", numLeafAst "3"]]) := by rfl

example : parseLsp "(+ 1 2)" = none := by rfl

example : parseLsp "(+ 1" = none := by rfl

example : parseLsp "+ 1 2)" = none := by rfl

/-! ## Helper lemmas -/

lemma goodLval_num (n : Int) : GoodLval (lval_num n) := Or.inl rfl

lemma eval_op_good {x : lval} (op : String) (y : lval) (hx : GoodLval x) :
    GoodLval (eval_op x op y) := by
  unfold eval_op
  split_ifs <;>
    first
      | exact hx
      | exact Or.inl rfl
      | exact Or.inr ⟨rfl, Or.inl rfl⟩
      | exact Or.inr ⟨rfl, Or.inr (Or.inl rfl)⟩

lemma wfExpr_tag {t : Ast} (h : WfExpr t) :
    strstrContains t.tag "expr" = true := by
  cases h <;> rfl

lemma evalLoop_stop (op : String) (stop : Ast)
    (hstop : strstrContains stop.tag "expr" = false) :
    ∀ (es : List Ast),
      (∀ e ∈ es, strstrContains e.tag "expr" = true ∧
        ∃ v, eval e = some v ∧ GoodLval v) →
      ∀ x : lval, GoodLval x →
        ∃ v, evalLoop op x (es ++ [stop]) = some v ∧ GoodLval v := by
  intro es
  induction es with
  | nil =>
    intro _ x hx
    exact ⟨x, by simp [evalLoop, hstop], hx⟩
  | cons e es ih =>
    intro hes x hx
    obtain ⟨htag, v, hv, hgv⟩ := hes e (List.mem_cons_self e es)
    obtain ⟨w, hw, hgw⟩ :=
      ih (fun e' he' => hes e' (List.mem_cons_of_mem e he'))
        (eval_op x op v) (eval_op_good op v hx)
    exact ⟨w, by simp [evalLoop, htag, hv, hw], hgw⟩

lemma eval_wf_expr {t : Ast} (h : WfExpr t) :
    ∃ v, eval t = some v ∧ GoodLval v := by
  induction h with
  | num txt =>
    refine ⟨if strtolERANGE txt then lval_err LERR_BAD_NUM
            else lval_num (strtolRet txt), ?_, ?_⟩
    · have hpos : strstrContains "expr|number|regex" "number" = true := by decide
      simp [eval, numLeafAst, hpos]
    · split_ifs
      · exact Or.inr ⟨rfl, Or.inr (Or.inr rfl)⟩
      · exact Or.inl rfl
  | paren op es hne hes ih =>
    match es, hne with
    | e :: es', _ =>
      obtain ⟨v, hv, hgv⟩ := ih e (List.mem_cons_self e es')
      obtain ⟨w, hw, hgw⟩ :=
        evalLoop_stop op (charNode ")") (by rfl) es'
          (fun e' he' =>
            ⟨wfExpr_tag (hes e' (List.mem_cons_of_mem e he')),
             ih e' (List.mem_cons_of_mem e he')⟩)
          v hgv
      refine ⟨w, ?_, hgw⟩
      have hneg : strstrContains "expr|>" "number" = false := by decide
      simpa [eval, exprNodeAst, charNode, opNodeAst, Ast.contents, hv, hneg]
        using hw

lemma eval_wf_root {t : Ast} (h : WfRoot t) :
    ∃ v, eval t = some v ∧ GoodLval v := by
  match h with
  | WfRoot.mk op es hne hes =>
    match es, hne with
    | e :: es', _ =>
      obtain ⟨v, hv, hgv⟩ := eval_wf_expr (hes e (List.mem_cons_self e es'))
      obtain ⟨w, hw, hgw⟩ :=
        evalLoop_stop op anchorAst (by rfl) es'
          (fun e' he' =>
            ⟨wfExpr_tag (hes e' (List.mem_cons_of_mem e he')),
             eval_wf_expr (hes e' (List.mem_cons_of_mem e he'))⟩)
          v hgv
      refine ⟨w, ?_, hgw⟩
      have hneg : strstrContains ">" "number" = false := by decide
      simpa [eval, rootAst, anchorAst, opNodeAst, Ast.contents, hv, hneg]
        using hw

lemma parser_wf (fuel : Nat) :
    (∀ s a r, parseExprF fuel s = some (a, r) → WfExpr a) ∧
    (∀ s as r, parseMany fuel s = some (as, r) → ∀ e ∈ as, WfExpr e) := by
  induction fuel with
  | zero =>
    constructor
    · intro s a r h; simp [parseExprF] at h
    · intro s as r h; simp [parseMany] at h
  | succ n ih =>
    obtain ⟨ihE, ihM⟩ := ih
    constructor
    · intro s a r h
      simp only [parseExprF] at h
      cases hN : parseNumberTok (skipWs s) with
      | some p =>
        obtain ⟨txt, r1⟩ := p
        simp only [hN] at h
        simp only [Option.some.injEq, Prod.mk.injEq] at h
        obtain ⟨rfl, rfl⟩ := h
        exact WfExpr.num txt
      | none =>
        simp only [hN] at h
        simp only [Option.bind_eq_some, Option.map_eq_some'] at h
        obtain ⟨s2, -, ⟨op, s3⟩, -, ⟨e, s4⟩, hE, ⟨es, s5⟩, hM, s6, -, hres⟩ := h
        injection hres with h1 h2
        subst h1
        refine WfExpr.paren op (e :: es) (by simp) ?_
        intro e' he'
        rcases List.mem_cons.mp he' with rfl | he'
        · exact ihE _ _ _ hE
        · exact ihM _ _ _ hM e' he'
    · intro s as r h
      simp only [parseMany] at h
      cases hE : parseExprF n s with
      | some p =>
        obtain ⟨e, r1⟩ := p
        simp only [hE] at h
        cases hM : parseMany n r1 with
        | some q =>
          obtain ⟨es, r2⟩ := q
          simp only [hM] at h
          simp only [Option.some.injEq, Prod.mk.injEq] at h
          obtain ⟨rfl, rfl⟩ := h
          intro e' he'
          rcases List.mem_cons.mp he' with rfl | he'
          · exact ihE _ _ _ hE
          · exact ihM _ _ _ hM e' he'
        | none => simp only [hM] at h; exact Option.noConfusion h
      | none =>
        simp only [hE] at h
        simp only [Option.some.injEq, Prod.mk.injEq] at h
        obtain ⟨rfl, rfl⟩ := h
        intro e' he'
        simp at he'

lemma parseLsp_wf {input : String} {t : Ast} (h : parseLsp input = some t) :
    WfRoot t := by
  simp only [parseLsp, Option.bind_eq_some] at h
  obtain ⟨⟨op, s1⟩, -, ⟨e, s2⟩, hE, ⟨es, s3⟩, hM, hres⟩ := h
  split at hres
  · injection hres with h1
    subst h1
    refine WfRoot.mk op (e :: es) (by simp) ?_
    intro e' he'
    rcases List.mem_cons.mp he' with rfl | he'
    · exact (parser_wf _).1 _ _ _ hE
    · exact (parser_wf _).2 _ _ _ hM e' he'
  · exact absurd hres (by simp)

lemma subtree_of_leaf {s c : Ast} (h : Subtree s c) (hc : c.children = []) :
    s = c := by
  cases h with
  | refl => rfl
  | child c' t' hmem hsub => rw [hc] at hmem; exact absurd hmem (by simp)

lemma wfExpr_subtree {s t : Ast} (hsub : Subtree s t) : WfExpr t →
    strstrContains s.tag "expr" = true → WfExpr s := by
  induction hsub with
  | refl => exact fun h _ => h
  | child c t2 hmem hsub2 ih =>
    intro hwf htag
    cases hwf with
    | num txt => simp [numLeafAst, Ast.children] at hmem
    | paren op es hne hes =>
      simp only [exprNodeAst, Ast.children, List.cons_append, List.mem_cons] at hmem
      rcases hmem with rfl | rfl | hmem
      · obtain rfl := subtree_of_leaf hsub2 rfl
        simp only [charNode, Ast.tag] at htag
        exact absurd htag (by decide)
      · obtain rfl := subtree_of_leaf hsub2 rfl
        simp only [opNodeAst, Ast.tag] at htag
        exact absurd htag (by decide)
      · rcases List.mem_append.mp hmem with hmem | hmem
        · exact ih (hes c hmem) htag
        · obtain rfl := List.mem_singleton.mp hmem
          obtain rfl := subtree_of_leaf hsub2 rfl
          simp only [charNode, Ast.tag] at htag
          exact absurd htag (by decide)

lemma wfRoot_subtree {s t : Ast} (hsub : Subtree s t) (hwf : WfRoot t)
    (htag : strstrContains s.tag "expr" = true) : WfExpr s := by
  cases hwf with
  | mk op es hne hes =>
    cases hsub with
    | refl =>
      simp only [rootAst, Ast.tag] at htag
      exact absurd htag (by decide)
    | child c t2 hmem hsub2 =>
      simp only [rootAst, Ast.children, List.cons_append, List.mem_cons] at hmem
      rcases hmem with rfl | rfl | hmem
      · obtain rfl := subtree_of_leaf hsub2 rfl
        simp only [anchorAst, Ast.tag] at htag
        exact absurd htag (by decide)
      · obtain rfl := subtree_of_leaf hsub2 rfl
        simp only [opNodeAst, Ast.tag] at htag
        exact absurd htag (by decide)
      · rcases List.mem_append.mp hmem with hmem | hmem
        · exact wfExpr_subtree hsub2 (hes c hmem) htag
        · obtain rfl := List.mem_singleton.mp hmem
          obtain rfl := subtree_of_leaf hsub2 rfl
          simp only [anchorAst, Ast.tag] at htag
          exact absurd htag (by decide)

lemma dropWhile_all_append {p : Ast → Bool} {l : List Ast}
    (h : ∀ x ∈ l, p x = true) (a : Ast) (ha : p a = false) :
    (l ++ [a]).dropWhile p = [a] := by
  induction l with
  | nil => simp [List.dropWhile, ha]
  | cons x xs ih =>
    have hx := h x (List.mem_cons_self x xs)
    simp [List.dropWhile_cons, hx,
      ih (fun y hy => h y (List.mem_cons_of_mem x hy))]

lemma scan_shape_expr {t : Ast} (h : WfExpr t)
    (hn : strstrContains t.tag "number" = false) :
    3 ≤ t.children.length ∧
      (t.children.drop 3).dropWhile
        (fun c => strstrContains c.tag "expr") ≠ [] := by
  cases h with
  | num txt =>
    simp only [numLeafAst, Ast.tag] at hn
    exact absurd hn (by decide)
  | paren op es hne hes =>
    match es, hne with
    | e :: es', _ =>
      constructor
      · simp [exprNodeAst, Ast.children]
      · have hdrop : (exprNodeAst op (e :: es')).children.drop 3 =
            es' ++ [charNode ")"] := by
          simp [exprNodeAst, Ast.children]
        rw [hdrop,
          dropWhile_all_append
            (fun x hx => wfExpr_tag (hes x (List.mem_cons_of_mem e hx)))
            _ (by decide)]
        simp

lemma scan_shape_root {t : Ast} (h : WfRoot t) :
    3 ≤ t.children.length ∧
      (t.children.drop 3).dropWhile
        (fun c => strstrContains c.tag "expr") ≠ [] := by
  cases h with
  | mk op es hne hes =>
    match es, hne with
    | e :: es', _ =>
      constructor
      · simp [rootAst, Ast.children]
      · have hdrop : (rootAst op (e :: es')).children.drop 3 =
            es' ++ [anchorAst] := by
          simp [rootAst, Ast.children]
        rw [hdrop,
          dropWhile_all_append
            (fun x hx => wfExpr_tag (hes x (List.mem_cons_of_mem e hx)))
            _ (by decide)]
        simp

lemma foldl_bind_none (op : String) (cs : List Ast) :
    cs.foldl
      (fun acc c => acc.bind fun a => (eval c).bind fun y =>
        some (eval_op a op y))
      none = none := by
  induction cs with
  | nil => rfl
  | cons c cs ih => simpa using ih

lemma evalLoop_eq_specFold (op : String) :
    ∀ (cs : List Ast), (∃ c ∈ cs, strstrContains c.tag "expr" = false) →
      ∀ x : lval, evalLoop op x cs = specFoldChildren op x cs := by
  intro cs
  induction cs with
  | nil => intro hstop; simp at hstop
  | cons c cs ih =>
    intro hstop x
    cases htag : strstrContains c.tag "expr" with
    | true =>
      have hstop' : ∃ c' ∈ cs, strstrContains c'.tag "expr" = false := by
        obtain ⟨c', hc', hf⟩ := hstop
        rcases List.mem_cons.mp hc' with rfl | hc'
        · rw [htag] at hf; exact absurd hf (by simp)
        · exact ⟨c', hc', hf⟩
      cases heval : eval c with
      | some y =>
        simp [evalLoop, htag, heval, specFoldChildren, List.takeWhile_cons,
          ih hstop' (eval_op x op y)]
      | none =>
        simp [evalLoop, htag, heval, specFoldChildren, List.takeWhile_cons,
          foldl_bind_none]
    | false =>
      simp [evalLoop, htag, specFoldChildren, List.takeWhile_cons]

lemma strtolERANGE_false {s : String} (h1 : LONG_MIN ≤ strtolMath s)
    (h2 : strtolMath s ≤ LONG_MAX) : strtolERANGE s = false := by
  simp only [strtolERANGE, decide_eq_false_iff_not, not_or, not_lt]
  exact ⟨h1, h2⟩

lemma strtolRet_eq {s : String} (h1 : LONG_MIN ≤ strtolMath s)
    (h2 : strtolMath s ≤ LONG_MAX) : strtolRet s = strtolMath s := by
  unfold strtolRet
  rw [if_neg (not_lt.mpr h1), if_neg (not_lt.mpr h2)]

lemma eval_numLeaf (s : String) (h1 : LONG_MIN ≤ strtolMath s)
    (h2 : strtolMath s ≤ LONG_MAX) :
    eval (numLeafAst s) = some (lval_num (strtolMath s)) := by
  have hpos : strstrContains "expr|number|regex" "number" = true := by decide
  simp [eval, numLeafAst, hpos, strtolERANGE_false h1 h2, strtolRet_eq h1 h2]

lemma processLine_parse_none (input : String) (h : parseLsp input = none) :
    processLine input = ProcResult.parseFailure := by
  simp [processLine, h]

lemma processLine_parse_some (input : String) (t : Ast) (v : lval)
    (hp : parseLsp input = some t) (he : eval t = some v) :
    processLine input = ProcResult.value v := by
  simp [processLine, hp, he]

/-! ## Claims -/

/-- Claim C1 (code bug): the claim states that an error in either operand of
`combine` is returned unchanged, and the source's own comment says "If either
lval is an error, return it" — but the code checks `x.type` twice and never
`y.type`, so at the failing input below (left operand `Number 1`, right operand
`Error DivisionByZero`) the combination returns a `Number`, not the error. -/
theorem c1_right_operand_error_dropped :
    (eval_op (lval_num 1) "+" (lval_err LERR_DIV_ZERO)).type = LVAL_NUM := by
  decide

/-- Claim C2: for every non-number node, evaluation takes the literal text of
the child at index 1 as the operator, evaluates the child at index 2 as the
initial accumulator, and folds left-to-right (`List.foldl`) over the
subsequent children whose tag marks them as `expr` nodes, stopping at the
first non-`expr` child. -/
theorem c2_fold_left_to_right (tag cts : String) (c0 c1 c2 : Ast)
    (rest : List Ast)
    (hnum : strstrContains tag "number" = false)
    (hstop : ∃ c ∈ rest, strstrContains c.tag "expr" = false) :
    eval (Ast.mk tag cts (c0 :: c1 :: c2 :: rest)) =
      (eval c2).bind fun x => specFoldChildren c1.contents x rest := by
  have h := evalLoop_eq_specFold c1.contents rest hstop
  simp only [eval, hnum, Bool.false_eq_true, if_false]
  cases eval c2 <;> simp [h]

/-- Witness for C2 at the tree of `(- 10 1 2 3)`: the fold is left-to-right,
and the value is `((10 - 1) - 2) - 3 = 4`. -/
theorem c2_fold_left_to_right_witness :
    eval (exprNodeAst "-" [numLeafAst "10", numLeafAst "1", numLeafAst "2",
        numLeafAst "3"]) =
      ((eval (numLeafAst "10")).bind fun x =>
        specFoldChildren "-" x
          [numLeafAst "1", numLeafAst "2", numLeafAst "3", charNode ")"]) ∧
    eval (exprNodeAst "-" [numLeafAst "10", numLeafAst "1", numLeafAst "2",
        numLeafAst "3"]) = some (lval_num 4) := by
  constructor
  · exact c2_fold_left_to_right "expr|>" "" (charNode "(") (opNodeAst "-")
      (numLeafAst "10") [numLeafAst "1", numLeafAst "2", numLeafAst "3",
        charNode ")"] (by decide) ⟨charNode ")", by simp, by decide⟩
  · simp +decide [eval, evalLoop, eval_op, exprNodeAst, charNode, opNodeAst,
      numLeafAst, Ast.tag, Ast.contents, lval_num, lval_err, strtolERANGE,
      strtolRet, strtolMath, digitsVal, LVAL_NUM, LVAL_ERR, LONG_MIN, LONG_MAX]

/-- Claim C3: for every recognized operator in `+ - * /` and in-range operand
numerals with values `a` and `b` (`b ≠ 0` when dividing), evaluating the
top-level expression applying the operator to the two numerals yields
`Number (a op b)`, with `/` the integer truncating division (`Int.tdiv`). -/
theorem c3_binary_operator (op sa sb : String) (a b : Int)
    (hop : op = "+" ∨ op = "-" ∨ op = "*" ∨ op = "/")
    (ha : strtolMath sa = a) (ha1 : LONG_MIN ≤ a) (ha2 : a ≤ LONG_MAX)
    (hb : strtolMath sb = b) (hb1 : LONG_MIN ≤ b) (hb2 : b ≤ LONG_MAX)
    (hdiv : op = "/" → b ≠ 0) :
    eval (rootAst op [numLeafAst sa, numLeafAst sb]) =
      some (lval_num (specOpDenote op a b)) := by
  subst ha hb
  have hA := eval_numLeaf sa ha1 ha2
  have hB := eval_numLeaf sb hb1 hb2
  have hneg : strstrContains ">" "number" = false := by decide
  have htagN : strstrContains "expr|number|regex" "expr" = true := by decide
  have htagA : strstrContains "regex" "expr" = false := by decide
  have hcomb : eval_op (lval_num (strtolMath sa)) op (lval_num (strtolMath sb))
      = lval_num (specOpDenote op (strtolMath sa) (strtolMath sb)) := by
    rcases hop with rfl | rfl | rfl | rfl
    · simp +decide [eval_op, lval_num, specOpDenote, LVAL_NUM, LVAL_ERR]
    · simp +decide [eval_op, lval_num, specOpDenote, LVAL_NUM, LVAL_ERR]
    · simp +decide [eval_op, lval_num, specOpDenote, LVAL_NUM, LVAL_ERR]
    · have hb0 : strtolMath sb ≠ 0 := hdiv rfl
      simp +decide [eval_op, lval_num, specOpDenote, LVAL_NUM, LVAL_ERR, hb0]
  have hposN : strstrContains "expr|number|regex" "number" = true := by decide
  simp [eval, rootAst, anchorAst, opNodeAst, numLeafAst, Ast.tag, Ast.contents,
    hneg, evalLoop, htagN, htagA, hcomb, hposN,
    strtolERANGE_false ha1 ha2, strtolRet_eq ha1 ha2,
    strtolERANGE_false hb1 hb2, strtolRet_eq hb1 hb2]

/-- Witness for C3: `/ 7 -2` yields `Number (Int.tdiv 7 (-2)) = Number (-3)`
(truncating division, regardless of sign). -/
theorem c3_binary_operator_witness :
    eval (rootAst "/" [numLeafAst "7", numLeafAst "-2"]) =
      some (lval_num (specOpDenote "/" 7 (-2))) ∧
    specOpDenote "/" 7 (-2) = -3 := by
  constructor
  · exact c3_binary_operator "/" "7" "-2" 7 (-2)
      (Or.inr (Or.inr (Or.inr rfl))) (by decide) (by decide) (by decide)
      (by decide) (by decide) (by decide) (fun _ => by decide)
  · decide

/-- Claim C4: combining any `Number` value with operator `/` and right operand
`Number 0` yields `Error DivisionByZero`, regardless of the left operand. -/
theorem c4_division_by_zero (a : lval) (h : a.type = LVAL_NUM) :
    eval_op a "/" (lval_num 0) = lval_err LERR_DIV_ZERO := by
  simp +decide [eval_op, h, lval_num, LVAL_NUM, LVAL_ERR]

/-- Witness for C4 at `a = Number (-5)`. -/
theorem c4_division_by_zero_witness :
    eval_op (lval_num (-5)) "/" (lval_num 0) = lval_err LERR_DIV_ZERO :=
  c4_division_by_zero (lval_num (-5)) rfl

/-- Claim C5: for every node tagged as a number leaf, evaluation base-10
parses the literal text; if the value is out of the representable `long`
range the result is `Error InvalidNumber`, otherwise `Number parsedValue`. -/
theorem c5_number_base_case (t : Ast)
    (h : strstrContains t.tag "number" = true) :
    eval t = some
      (if LONG_MIN ≤ strtolMath t.contents ∧ strtolMath t.contents ≤ LONG_MAX
        then lval_num (strtolMath t.contents)
        else lval_err LERR_BAD_NUM) := by
  obtain ⟨tag, cts, ch⟩ := t
  simp only [Ast.tag] at h
  rw [eval.eq_def]
  simp only [Ast.contents, h, if_true]
  by_cases hr : LONG_MIN ≤ strtolMath cts ∧ strtolMath cts ≤ LONG_MAX
  · simp [strtolERANGE_false hr.1 hr.2, strtolRet_eq hr.1 hr.2, hr]
  · have hE : strtolERANGE cts = true := by
      simp only [strtolERANGE, decide_eq_true_eq]
      rcases not_and_or.mp hr with h1 | h2
      · exact Or.inl (not_le.mp h1)
      · exact Or.inr (not_le.mp h2)
    simp [hE, hr]

/-- Witness for C5 at the in-range leaf `12` and the out-of-range leaf
`99999999999999999999`. -/
theorem c5_number_base_case_witness :
    eval (numLeafAst "12") = some
      (if LONG_MIN ≤ strtolMath "12" ∧ strtolMath "12" ≤ LONG_MAX
        then lval_num (strtolMath "12") else lval_err LERR_BAD_NUM) ∧
    eval (numLeafAst "99999999999999999999") = some
      (if LONG_MIN ≤ strtolMath "99999999999999999999" ∧
          strtolMath "99999999999999999999" ≤ LONG_MAX
        then lval_num (strtolMath "99999999999999999999")
        else lval_err LERR_BAD_NUM) :=
  ⟨c5_number_base_case (numLeafAst "12") (by decide),
   c5_number_base_case (numLeafAst "99999999999999999999") (by decide)⟩

/-- Claim C6 counterexample: feeding the text of a valid decimal integer `n`
alone as one input line does not yield `Number n`: for `n = 5` the line is a
parse failure (the top-level rule demands a leading operator), and for
`n = -5` the line parses as the operator `-` applied to the single operand `5`
and yields `Number 5`, not `Number (-5)`. -/
theorem c6_single_number_counterexample :
    processLine "5" = ProcResult.parseFailure ∧
    processLine "-5" = ProcResult.value (lval_num 5) := by
  constructor
  · exact processLine_parse_none "5" (by rfl)
  · have h5 : strtolMath "5" = 5 := by decide
    have hA : eval (numLeafAst "5") = some (lval_num 5) := by
      rw [← h5]
      exact eval_numLeaf "5" (by decide) (by decide)
    have hneg : strstrContains ">" "number" = false := by decide
    have htagA : strstrContains "regex" "expr" = false := by decide
    have he : eval (rootAst "-" [numLeafAst "5"]) = some (lval_num 5) := by
      simp [eval, rootAst, anchorAst, opNodeAst, Ast.tag, Ast.contents,
        hneg, hA, evalLoop, htagA]
    exact processLine_parse_some "-5" (rootAst "-" [numLeafAst "5"])
      (lval_num 5) (by rfl) he

/-- Claim C6 amended: a bare number is not accepted by the top-level grammar —
for every input line whose first non-whitespace character is a digit,
processing yields a parse failure (the `lsp` rule demands a leading
operator); the evaluator's number base case itself does map an in-range
number leaf with literal text of value `n` to `Number n`. -/
theorem c6_single_number_amended :
    (∀ (s : String) (c : Char) (r : List Char), skipWs s.data = c :: r →
        c.isDigit = true → processLine s = ProcResult.parseFailure) ∧
    (∀ txt : String, LONG_MIN ≤ strtolMath txt → strtolMath txt ≤ LONG_MAX →
        eval (numLeafAst txt) = some (lval_num (strtolMath txt))) := by
  constructor
  · intro s c r hskip hdig
    have hnotop : ¬(c = '+' ∨ c = '-' ∨ c = '*' ∨ c = '/') := by
      rintro (rfl | rfl | rfl | rfl) <;> exact absurd hdig (by decide)
    have hop : parseOpTok (skipWs s.data) = none := by
      rw [hskip]
      simp [parseOpTok, hnotop]
    apply processLine_parse_none
    simp [parseLsp, hop]
  · exact fun txt h1 h2 => eval_numLeaf txt h1 h2

/-- Witness for the amended C6 at input `7`. -/
theorem c6_single_number_amended_witness :
    processLine "7" = ProcResult.parseFailure ∧
    eval (numLeafAst "7") = some (lval_num (strtolMath "7")) :=
  ⟨c6_single_number_amended.1 "7" '7' [] rfl rfl,
   c6_single_number_amended.2 "7" (by decide) (by decide)⟩

/-- Claim C7: for every input line the parser rejects, the processing result
is a parse failure — the evaluator is never invoked, so no semantic error and
no crash can be produced for that line. -/
theorem c7_parse_failure_skips_eval (input : String)
    (h : parseLsp input = none) :
    processLine input = ProcResult.parseFailure :=
  processLine_parse_none input h

/-- Witness for C7 at the unbalanced input `(+ 1`. -/
theorem c7_parse_failure_skips_eval_witness :
    processLine "(+ 1" = ProcResult.parseFailure :=
  c7_parse_failure_skips_eval "(+ 1" (by rfl)

/-- Claim C8: for every tree produced by a successful parse the evaluator
terminates (it is a total function in this embedding, and never hits the
out-of-bounds case modelled by `none`) and returns a value that is either a
`Number` or one of the three error kinds. -/
theorem c8_eval_total (input : String) (t : Ast)
    (h : parseLsp input = some t) :
    ∃ v, eval t = some v ∧ GoodLval v :=
  eval_wf_root (parseLsp_wf h)

/-- Witness for C8 at input `+ 1 2`. -/
theorem c8_eval_total_witness :
    ∃ v, eval (rootAst "+" [numLeafAst "1", numLeafAst "2"]) = some v ∧
      GoodLval v :=
  c8_eval_total "+ 1 2" (rootAst "+" [numLeafAst "1", numLeafAst "2"]) (by rfl)

/-- Claim C9: for every operator in `+ - *` and every left operand that is a
`Number`, the combination returns a `Number` even when the right operand is an
`Error`, because the second error check in `eval_op` re-tests the left
operand instead of the right one. -/
theorem c9_right_error_discarded (x y : lval) (op : String)
    (hx : x.type = LVAL_NUM) (hop : op = "+" ∨ op = "-" ∨ op = "*") :
    (eval_op x op y).type = LVAL_NUM := by
  rcases hop with rfl | rfl | rfl <;>
    simp +decide [eval_op, hx, lval_num, LVAL_NUM, LVAL_ERR]

/-- Witness for C9: combining `Number 3` with an `Error` right operand under
`+` yields a `Number`. -/
theorem c9_right_error_discarded_witness :
    (eval_op (lval_num 3) "+" (lval_err LERR_BAD_NUM)).type = LVAL_NUM :=
  c9_right_error_discarded (lval_num 3) (lval_err LERR_BAD_NUM) "+" rfl
    (Or.inl rfl)

/-- Claim C10: in every tree produced by the fixed grammar, every node the
evaluator's non-number branch can reach (the root, and any subtree whose tag
marks it as an `expr` node) has at least three children, and the child
sequence from index 3 on contains a non-`expr` child (the closing parenthesis
or the end-of-input anchor) before the array is exhausted, so the child scan
stops in bounds. -/
theorem c10_scan_in_bounds (input : String) (t s : Ast)
    (hp : parseLsp input = some t)
    (hs : s = t ∨ (Subtree s t ∧ strstrContains s.tag "expr" = true))
    (hn : strstrContains s.tag "number" = false) :
    3 ≤ s.children.length ∧
      (s.children.drop 3).dropWhile
        (fun c => strstrContains c.tag "expr") ≠ [] := by
  have hwf := parseLsp_wf hp
  rcases hs with rfl | ⟨hsub, htag⟩
  · exact scan_shape_root hwf
  · exact scan_shape_expr (wfRoot_subtree hsub hwf htag) hn

/-- Witness for C10 at input `+ 1 2`, taking `s` to be the root itself. -/
theorem c10_scan_in_bounds_witness :
    3 ≤ (rootAst "+" [numLeafAst "1", numLeafAst "2"]).children.length ∧
      (((rootAst "+" [numLeafAst "1", numLeafAst "2"]).children.drop 3).dropWhile
        (fun c => strstrContains c.tag "expr")) ≠ [] :=
  c10_scan_in_bounds "+ 1 2" (rootAst "+" [numLeafAst "1", numLeafAst "2"])
    (rootAst "+" [numLeafAst "1", numLeafAst "2"]) (by rfl) (Or.inl rfl)
    (by decide)
